import Mathlib

/-!
# flerr: the `Cleaner` registry of deferred cleanup functions

A shallow embedding of `flerr.go` (package `flerr`), of the parts of Go's
`errors` and `fmt` packages it calls, and of the loop `testCleanerLoop` of
`flerr_test.go` with its `Resource` and `ResourceSource`, followed by theorems
about `Add`, `Addf`, `Flush`, `FlushTo` and the loop.

Modelling decisions.

* A Go `error` is a tree: an opaque error value with an identity and a message,
  a `*fmt.wrapError` (built by `fmt.Errorf` with `%w`) or an `*errors.joinError`
  (built by `errors.Join`). The nil error is `none : Option GoError`.
* A cleanup function `func() error` is a closure with side effects. It is a
  function from the state of the program (the world, of an arbitrary type `σ`)
  to the error it returns, the new world, and the cleanup functions it has
  registered on the Cleaner itself while it ran (calls of `c.Add` made by the
  closure). A closure that does not touch the Cleaner returns the empty list.
* A method with a pointer receiver takes the Cleaner and returns the new one.
  The `*error` argument of `FlushTo` is a slot that is read and returned.
* In the test loop the world is the `ResourceSource`; a `*Resource` is the
  position of the resource in `all`, and the operation handed to the loop reads
  the resources and does not write them.
-/

namespace Flerr

/-! ## Go errors -/

/-- A non-nil Go `error` value. `leaf id msg` is an opaque error (for instance
one made by `errors.New` or by `fmt.Errorf` without `%w`) with identity `id` and
`Error()` text `msg`; `wrapError msg err` is `*fmt.wrapError`; `joinError errs`
is `*errors.joinError`. -/
inductive GoError where
  | leaf (id : Nat) (msg : String)
  | wrapError (msg : String) (err : GoError)
  | joinError (errs : List GoError)

/-- The body of `(*joinError).Error` on the messages of the constituents:
`if len(e.errs) == 1 { return e.errs[0].Error() }`, otherwise start with the
first message and, for each later one, append a newline and the message. Go
indexes `e.errs[0]`, so the empty list (which `errors.Join` never builds) would
panic there; the model gives it the empty text. -/
def joinErrorText : List String → String
  | [] => ""
  | m :: rest =>
    if (m :: rest).length = 1 then m
    else rest.foldl (fun b x => b ++ "\n" ++ x) m

mutual
/-- The method `Error() string`. -/
def GoError.Error : GoError → String
  | .leaf _ msg => msg
  | .wrapError msg _ => msg
  | .joinError errs => joinErrorText (GoError.ErrorAll errs)
/-- The `Error()` text of each error of a list. -/
def GoError.ErrorAll : List GoError → List String
  | [] => []
  | e :: es => e.Error :: GoError.ErrorAll es
end

/-- The method `Unwrap() error`, which only `*fmt.wrapError` has. -/
def GoError.Unwrap : GoError → Option GoError
  | .wrapError _ err => some err
  | _ => none

/-- The method `Unwrap() []error`, which only `*errors.joinError` has. -/
def GoError.UnwrapAll : GoError → Option (List GoError)
  | .joinError errs => some errs
  | _ => none

/-- Go's `errors.Join(errs...)`: count the non-nil values, return nil when there
is none, otherwise a `*joinError` holding the non-nil values in order. -/
def errorsJoin (errs : List (Option GoError)) : Option GoError :=
  let n := (errs.filter Option.isSome).length
  if n = 0 then none
  else some (GoError.joinError (errs.filterMap id))

/-- Go's `fmt.Errorf("%s: %w", msg, err)` for a non-nil `err`: a
`*fmt.wrapError` whose text is `msg`, `": "` and `err.Error()`, and which
unwraps to `err`. -/
def fmtErrorf (msg : String) (err : GoError) : GoError :=
  GoError.wrapError (msg ++ ": " ++ err.Error) err

mutual
/-- Comparison `err == target` of two error values. -/
def GoError.beq : GoError → GoError → Bool
  | .leaf i m, .leaf j n => i == j && m == n
  | .wrapError m e, .wrapError n f => m == n && GoError.beq e f
  | .joinError es, .joinError fs => GoError.beqAll es fs
  | _, _ => false
/-- Pointwise comparison of two lists of errors. -/
def GoError.beqAll : List GoError → List GoError → Bool
  | [], [] => true
  | e :: es, f :: fs => GoError.beq e f && GoError.beqAll es fs
  | _, _ => false
end

mutual
/-- Go's `errors.Is(err, target)` for non-nil arguments: `err == target`, else
follow `Unwrap() error`, else try each error of `Unwrap() []error` in order. -/
def errorsIs : GoError → GoError → Bool
  | .leaf i m, target => GoError.beq (.leaf i m) target
  | .wrapError m e, target => GoError.beq (.wrapError m e) target || errorsIs e target
  | .joinError es, target => GoError.beq (.joinError es) target || errorsIsAny es target
/-- The loop of `errors.Is` over the result of `Unwrap() []error`. -/
def errorsIsAny : List GoError → GoError → Bool
  | [], _ => false
  | e :: es, target => errorsIs e target || errorsIsAny es target
end

/-! ## The Cleaner -/

/-- A cleanup function, `func() error`: run in a world `w` it returns its error,
the new world and the functions it registered on the Cleaner meanwhile. -/
inductive Item (σ : Type) where
  | mk (run : σ → Option GoError × σ × List (Item σ))

/-- Call a cleanup function. -/
def Item.run {σ : Type} : Item σ → σ → Option GoError × σ × List (Item σ)
  | .mk f => f

/-- A cleanup function that does not touch the Cleaner. -/
def Item.ofFn {σ : Type} (f : σ → Option GoError × σ) : Item σ :=
  Item.mk (fun w => ((f w).1, (f w).2, []))

/-- The struct `Cleaner { items []func() error }`. -/
structure Cleaner (σ : Type) where
  items : List (Item σ)

/-- The zero value `var cleaner flerr.Cleaner`. -/
def Cleaner.zero {σ : Type} : Cleaner σ := { items := [] }

/-- The method `Add`: `c.items = append(c.items, fn)`. -/
def Cleaner.Add {σ : Type} (c : Cleaner σ) (fn : Item σ) : Cleaner σ :=
  { items := c.items ++ [fn] }

/-- Go's `fmt.Sprintf(format, a...)`. A format in which no `%` occurs is copied
to the output as it is, and with no argument nothing follows it. What
`fmt.Sprintf` makes of verbs and of surplus arguments is the parameter
`render`. -/
def Sprintf {α : Type} (render : String → List α → String)
    (format : String) (a : List α) : String :=
  if '%' ∉ format.toList ∧ a.length = 0 then format else render format a

/-- The closure that `Addf` appends: call `fn`; when it fails, build the
message with `fmt.Sprintf(format, a...)` and wrap the error; else return nil. -/
def addfItem {σ α : Type} (render : String → List α → String)
    (fn : Item σ) (format : String) (a : List α) : Item σ :=
  Item.mk (fun w =>
    match fn.run w with
    | (some err, rest) =>
      let msg := Sprintf render format a
      (some (fmtErrorf msg err), rest)
    | (none, rest) => (none, rest))

/-- The method `Addf`: append the wrapping closure. -/
def Cleaner.Addf {σ α : Type} (render : String → List α → String)
    (c : Cleaner σ) (fn : Item σ) (format : String) (a : List α) : Cleaner σ :=
  { items := c.items ++ [addfItem render fn format a] }

/-- The loop of `Flush`, `for _, fn := range c.items`, over the functions still
to call. The range expression is evaluated once, so the loop walks the items
as they were when it started; `items` is the current value of `c.items`, which
a cleanup function may have appended to, and `errs` the errors so far. -/
def flushLoop {σ : Type} :
    List (Item σ) → σ → List (Item σ) → List GoError → σ × List (Item σ) × List GoError
  | [], w, items, errs => (w, items, errs)
  | fn :: rest, w, items, errs =>
    match fn.run w with
    | (some err, w', added) => flushLoop rest w' (items ++ added) (errs ++ [err])
    | (none, w', added) => flushLoop rest w' (items ++ added) errs

/-- What a method of the Cleaner leaves behind: the error returned (for
`FlushTo`, the value of the slot), the Cleaner and the world. -/
structure Result (σ : Type) where
  err : Option GoError
  cleaner : Cleaner σ
  world : σ

/-- The method `Flush`: run the loop, reset `c.items` to `c.items[0:0]`, return
nil when no error was collected and `errors.Join(errs...)` otherwise. -/
def Cleaner.Flush {σ : Type} (c : Cleaner σ) (w : σ) : Result σ :=
  let r := flushLoop c.items w c.items []
  let errs := r.2.2
  let c' : Cleaner σ := { items := (r.2.1.drop 0).take 0 }
  if errs.length = 0 then { err := none, cleaner := c', world := r.1 }
  else { err := errorsJoin (errs.map some), cleaner := c', world := r.1 }

/-- The method `FlushTo`: `err := c.Flush()`, and when `err != nil` the slot
becomes `errors.Join(*outErr, err)`. -/
def Cleaner.FlushTo {σ : Type} (c : Cleaner σ) (outErr : Option GoError) (w : σ) : Result σ :=
  let r := c.Flush w
  match r.err with
  | some err => { err := errorsJoin [outErr, some err], cleaner := r.cleaner, world := r.world }
  | none => { err := outErr, cleaner := r.cleaner, world := r.world }

/-! ## Specification-level functions -/

/-- What each function of a list returns when they are called one after the
other, in list order, starting in world `w`. -/
def outcomes {σ : Type} : List (Item σ) → σ → List (Option GoError)
  | [], _ => []
  | fn :: rest, w => (fn.run w).1 :: outcomes rest (fn.run w).2.1

/-- The world after calling the functions of a list one after the other. -/
def worldAfter {σ : Type} : List (Item σ) → σ → σ
  | [], w => w
  | fn :: rest, w => worldAfter rest (fn.run w).2.1

/-- The failures among the outcomes, in order. -/
def failures {σ : Type} (items : List (Item σ)) (w : σ) : List GoError :=
  (outcomes items w).filterMap id

/-- A cleanup function that does not touch the Cleaner and, in a world that
carries a log of calls, records its tag each time it is called. -/
def traced {σ ι : Type} (tag : ι) (f : σ → Option GoError × σ) : Item (σ × List ι) :=
  Item.ofFn (fun s => ((f s.1).1, ((f s.1).2, s.2 ++ [tag])))

/-- One registration call: `Add(fn)` or `Addf(fn, format, a...)`. -/
inductive Registration (σ α : Type) where
  | add (fn : Item σ)
  | addf (fn : Item σ) (format : String) (a : List α)

/-- Perform one registration call. -/
def Cleaner.register {σ α : Type} (render : String → List α → String)
    (c : Cleaner σ) : Registration σ α → Cleaner σ
  | .add fn => c.Add fn
  | .addf fn format a => c.Addf render fn format a

/-- Perform registration calls one after the other. -/
def Cleaner.registerAll {σ α : Type} (render : String → List α → String)
    (c : Cleaner σ) (rs : List (Registration σ α)) : Cleaner σ :=
  rs.foldl (Cleaner.register render) c

/-- The function handed to a registration call. -/
def Registration.fn {σ α : Type} : Registration σ α → Item σ
  | .add fn => fn
  | .addf fn _ _ => fn

/-- A registration call, by `Add` or by `Addf`, of a traced function. -/
inductive TracedReg (σ ι α : Type) where
  | add (tag : ι) (f : σ → Option GoError × σ)
  | addf (tag : ι) (f : σ → Option GoError × σ) (format : String) (a : List α)

/-- The tag of a traced registration. -/
def TracedReg.tag {σ ι α : Type} : TracedReg σ ι α → ι
  | .add tag _ => tag
  | .addf tag _ _ _ => tag

/-- The function of a traced registration. -/
def TracedReg.f {σ ι α : Type} : TracedReg σ ι α → σ → Option GoError × σ
  | .add _ f => f
  | .addf _ f _ _ => f

/-- The registration call a traced registration stands for. -/
def TracedReg.toReg {σ ι α : Type} : TracedReg σ ι α → Registration (σ × List ι) α
  | .add tag f => .add (traced tag f)
  | .addf tag f format a => .addf (traced tag f) format a


/-- The functions registered on the Cleaner by the functions of a list while
they are called one after the other. -/
def registeredDuring {σ : Type} : List (Item σ) → σ → List (Item σ)
  | [], _ => []
  | fn :: rest, w => (fn.run w).2.2 ++ registeredDuring rest (fn.run w).2.1

/-- Call the functions of a list one after the other and keep the world. -/
def runFns {σ : Type} (fs : List (σ → Option GoError × σ)) (w : σ) : σ :=
  fs.foldl (fun v f => (f v).2) w

/-- The closure that a registration call appends to the items. -/
def Registration.item {σ α : Type} (render : String → List α → String) :
    Registration σ α → Item σ
  | .add fn => fn
  | .addf fn format a => addfItem render fn format a

/-- Messages joined by a single newline between consecutive messages, with no
newline before the first message nor after the last. -/
def joinLines : List String → String
  | [] => ""
  | [m] => m
  | m :: m' :: ms => m ++ "\n" ++ joinLines (m' :: ms)

/-! ## Example registries -/

/-- A `render` for the examples, whose formats have no verb: it returns the
format. -/
def renderPlain : String → List Nat → String := fun format _ => format

/-- The error X of the examples. -/
def errX : GoError := GoError.leaf 0 "X"

/-- The error Y of the examples. -/
def errY : GoError := GoError.leaf 1 "Y"

/-- The error Z of the examples, for the slot. -/
def errZ : GoError := GoError.leaf 2 "Z"

/-- A cleanup function that counts its call in the world and fails with `err`. -/
def failWith (err : GoError) : Item Nat := Item.ofFn (fun n => (some err, n + 1))

/-- A cleanup function that counts its call in the world and succeeds. -/
def succeed : Item Nat := Item.ofFn (fun n => (none, n + 1))

/-- A registry whose three functions fail with X, succeed and fail with Y. -/
def cleanerXY : Cleaner Nat :=
  ((Cleaner.zero.Add (failWith errX)).Add succeed).Add (failWith errY)

/-- A registry of two functions that succeed. -/
def cleanerOk : Cleaner Nat := (Cleaner.zero.Add succeed).Add succeed

/-- A registry with a function failing with X, registered by `Add`, and one
failing with Y, registered by `Addf` with the label `close source`. -/
def cleanerLabelled : Cleaner Nat :=
  (Cleaner.zero.Add (failWith errX)).Addf renderPlain (failWith errY) "close source" []

/-- A registry of two traced functions, tag 1 registered before tag 2. -/
def cleanerTagged : Cleaner (Unit × List Nat) :=
  Cleaner.zero.registerAll renderPlain
    [TracedReg.toReg (TracedReg.add 1 (fun (u : Unit) => (none, u))),
     TracedReg.toReg (TracedReg.add 2 (fun (u : Unit) => (some errX, u)))]

/-! ## Further specification-level functions -/

/-- A cleanup function with the same error and the same effect on the world,
and without its registrations on the Cleaner. -/
def Item.withoutAdds {σ : Type} (fn : Item σ) : Item σ :=
  Item.ofFn (fun w => ((fn.run w).1, (fn.run w).2.1))

/-- The direct constituents of what `Flush` returned: those of the join, and
none for nil. -/
def constituents : Option GoError → List GoError
  | some e => (e.UnwrapAll).getD []
  | none => []

/-- A cleanup function that, besides running `f` and recording its tag in the log
of calls, registers the functions `gs` on the Cleaner (calls of `c.Add`). -/
def tracedAdding {σ ι : Type} (tag : ι) (f : σ → Option GoError × σ)
    (gs : List (Item (σ × List ι))) : Item (σ × List ι) :=
  Item.mk (fun s => ((f s.1).1, ((f s.1).2, s.2 ++ [tag]), gs))

/-! ## The test loop of `flerr_test.go` -/

/-- The struct `Resource`. -/
structure Resource where
  err : Option GoError
  Name : String
  CloseCalled : Bool

/-- The struct `ResourceSource`. The resources that the pointers of `all` point
to are kept in the list itself, and a `*Resource` is the position of the
resource in `all`. The Go `int`s are counters and positions, never negative. -/
structure ResourceSource where
  n : Nat
  closeF : List Nat
  openF : List Nat
  all : List Resource

/-- The method `(*Resource).Close` of the resource at position `k`: set
`CloseCalled`, return `r.err`. -/
def Resource.Close (k : Nat) (rs : ResourceSource) : Option GoError × ResourceSource :=
  match rs.all[k]? with
  | some r => (r.err, { rs with all := rs.all.set k { r with CloseCalled := true } })
  | none => (none, rs)

/-- The method value `r.Close`, as handed to `Addf`. -/
def closeItem (k : Nat) : Item ResourceSource := Item.ofFn (Resource.Close k)

/-- Go's verb `%q` on a string of letters and digits: the string in double
quotes. -/
def quote (name : String) : String := "\"" ++ name ++ "\""

/-- Go's `fmt.Sprintf` of a format that is `text` followed by `%d`, on a
non-negative int. -/
def sprintfD (text : String) (i : Nat) : String := text ++ toString i

/-- Go's `fmt.Errorf` of a format that is `text` followed by `%w`, on a non-nil
error. -/
def errorfW (text : String) (err : GoError) : GoError :=
  GoError.wrapError (text ++ err.Error) err

/-- The method `(*ResourceSource).Open`. The errors it makes take the counter
as their identity. -/
def ResourceSource.Open (rs : ResourceSource) (name : String) :
    Except GoError Nat × ResourceSource :=
  let n := rs.n
  let rs1 : ResourceSource := { rs with n := rs.n + 1 }
  if n ∈ rs1.openF then
    (Except.error (GoError.leaf n ("open resource with name " ++ quote name)), rs1)
  else
    let closeErr : Option GoError :=
      if n ∈ rs1.closeF then some (GoError.leaf n ("close resource with name " ++ quote name))
      else none
    let r : Resource := { Name := name, err := closeErr, CloseCalled := false }
    (Except.ok rs1.all.length, { rs1 with all := rs1.all ++ [r] })

/-- The names of the resources that `MustBeClosed` reports as leaked; the test
fails when there is one. -/
def ResourceSource.leaked (rs : ResourceSource) : List String :=
  (rs.all.filter (fun r => !r.CloseCalled)).map (fun r => r.Name)

/-- How one pass through the body of the loop of `testCleanerLoop` ends: with
a `return` of a value, or at the end of the body. -/
inductive Step where
  | ret (outErr : Option GoError) (cleaner : Cleaner ResourceSource) (fs : ResourceSource)
  | next (cleaner : Cleaner ResourceSource) (fs : ResourceSource)

/-- The body of the loop of `testCleanerLoop` for the index `i`. The operation
`op` gets the index and the two pointers and may read the resources. -/
def loopBody {α : Type} (render : String → List α → String)
    (op : Nat → Nat → Nat → ResourceSource → Option GoError)
    (i : Nat) (cleaner : Cleaner ResourceSource) (fs : ResourceSource) : Step :=
  match fs.Open (sprintfD "A" i) with
  | (Except.error err, fs1) => Step.ret (some (errorfW "open source: " err)) cleaner fs1
  | (Except.ok src, fs1) =>
    let cleaner1 := cleaner.Addf render (closeItem src) "close source" []
    match fs1.Open (sprintfD "B" i) with
    | (Except.error err, fs2) =>
      Step.ret (some (errorfW "open destination: " err)) cleaner1 fs2
    | (Except.ok dst, fs2) =>
      let cleaner2 := cleaner1.Addf render (closeItem dst) "close destination" []
      match op i dst src fs2 with
      | some err => Step.ret (some (errorfW "perform op: " err)) cleaner2 fs2
      | none =>
        let r := cleaner2.Flush fs2
        match r.err with
        | some err => Step.ret (some err) r.cleaner r.world
        | none => Step.next r.cleaner r.world

/-- The loop `for i := range n` of `testCleanerLoop`, over the indices still to
come, up to its `return`: the value returned, the Cleaner and the source. -/
def loopFrom {α : Type} (render : String → List α → String)
    (op : Nat → Nat → Nat → ResourceSource → Option GoError) :
    List Nat → Cleaner ResourceSource → ResourceSource →
      Option GoError × Cleaner ResourceSource × ResourceSource
  | [], cleaner, fs => (none, cleaner, fs)
  | i :: rest, cleaner, fs =>
    match loopBody render op i cleaner fs with
    | Step.ret outErr cleaner1 fs1 => (outErr, cleaner1, fs1)
    | Step.next cleaner1 fs1 => loopFrom render op rest cleaner1 fs1

/-- The function `testCleanerLoop`: the loop on the zero-value Cleaner, then
the deferred `cleaner.FlushTo(&outErr)` on the value returned. The result is
`outErr` and the source as the function leaves it. -/
def testCleanerLoop {α : Type} (render : String → List α → String)
    (fs : ResourceSource) (n : Nat)
    (op : Nat → Nat → Nat → ResourceSource → Option GoError) :
    Option GoError × ResourceSource :=
  let r := loopFrom render op (List.range n) Cleaner.zero fs
  let d := r.2.1.FlushTo r.1 r.2.2
  (d.err, d.world)

/-- The loop passes through the bodies of all the given indices without a
`return`: the Cleaner and the source it reaches, if it does. -/
def passes {α : Type} (render : String → List α → String)
    (op : Nat → Nat → Nat → ResourceSource → Option GoError) :
    List Nat → Cleaner ResourceSource → ResourceSource →
      Option (Cleaner ResourceSource × ResourceSource)
  | [], cleaner, fs => some (cleaner, fs)
  | i :: rest, cleaner, fs =>
    match loopBody render op i cleaner fs with
    | Step.ret _ _ _ => none
    | Step.next cleaner1 fs1 => passes render op rest cleaner1 fs1

/-- The source of `TestCleanerOpenFailure`: `FailForClose(0)`, `FailForOpen(1)`. -/
def srcOpenFailure : ResourceSource := { n := 0, closeF := [0], openF := [1], all := [] }

/-- The source of `TestCleanerOperationAndCloseFailure`: `FailForClose(0, 1)`. -/
def srcCloseFailure : ResourceSource := { n := 0, closeF := [0, 1], openF := [], all := [] }

/-- The zero-value source of `TestCleanerOperationFailure` and
`TestCleanerSuccess`. -/
def srcZero : ResourceSource := { n := 0, closeF := [], openF := [], all := [] }

/-- The operation of `TestCleanerOperationAndCloseFailure`: it fails with
`operation %d failed`. -/
def opAlwaysFails : Nat → Nat → Nat → ResourceSource → Option GoError :=
  fun n _ _ _ => some (GoError.leaf 1000 (sprintfD "operation " n ++ " failed"))

/-- The operation of `TestCleanerOperationFailure`: it fails when `n == 2`. -/
def opFailsAtTwo : Nat → Nat → Nat → ResourceSource → Option GoError :=
  fun n _ _ _ =>
    if n = 2 then some (GoError.leaf 1000 (sprintfD "operation " n ++ " failed")) else none

/-- The operation of `TestCleanerOpenFailure` and `TestCleanerSuccess`. -/
def opSucceeds : Nat → Nat → Nat → ResourceSource → Option GoError :=
  fun _ _ _ _ => none

/-- The line that a close labelled `label` adds to the error text: none when
it succeeds, the label, a colon and a space, and the text of its error when it
fails. -/
def closeLine (label : String) : Option GoError → List String
  | some err => [label ++ ": " ++ err.Error]
  | none => []

/-- A source whose closes of the third pair of resources fail:
`FailForClose(4, 5)`. -/
def srcLateCloseFailure : ResourceSource := { n := 0, closeF := [4, 5], openF := [], all := [] }

/-- The source `srcLateCloseFailure` after two passes through the body of the
loop: four resources opened and closed. -/
def srcAfterTwo : ResourceSource :=
  { n := 4, closeF := [4, 5], openF := [],
    all := [{ err := none, Name := "A0", CloseCalled := true },
            { err := none, Name := "B0", CloseCalled := true },
            { err := none, Name := "A1", CloseCalled := true },
            { err := none, Name := "B1", CloseCalled := true }] }

/-! ## Lemmas about the loop of Flush -/

theorem flushLoop_eq {σ : Type} (l : List (Item σ)) :
    ∀ (w : σ) (items : List (Item σ)) (errs : List GoError),
      flushLoop l w items errs
        = (worldAfter l w, items ++ registeredDuring l w, errs ++ failures l w) := by
  induction l with
  | nil => intro w items errs; simp [flushLoop, worldAfter, registeredDuring, failures, outcomes]
  | cons fn rest ih =>
    intro w items errs
    rcases h : fn.run w with ⟨o, w', added⟩
    cases o with
    | none =>
      simp [flushLoop, worldAfter, registeredDuring, failures, outcomes, h, ih]
    | some err =>
      simp [flushLoop, worldAfter, registeredDuring, failures, outcomes, h, ih]

theorem Flush_world {σ : Type} (c : Cleaner σ) (w : σ) :
    (c.Flush w).world = worldAfter c.items w := by
  unfold Cleaner.Flush
  simp only [flushLoop_eq]
  split <;> rfl

theorem Flush_items {σ : Type} (c : Cleaner σ) (w : σ) :
    (c.Flush w).cleaner.items = [] := by
  unfold Cleaner.Flush
  simp only [flushLoop_eq]
  split <;> simp

theorem errorsJoin_some (errs : List GoError) (h : errs ≠ []) :
    errorsJoin (errs.map some) = some (GoError.joinError errs) := by
  cases errs with
  | nil => exact absurd rfl h
  | cons e es =>
    simp [errorsJoin, List.filterMap_map, List.filter_map]

theorem Flush_err_nil {σ : Type} (c : Cleaner σ) (w : σ) (h : failures c.items w = []) :
    (c.Flush w).err = none := by
  unfold Cleaner.Flush
  simp only [flushLoop_eq, h]
  simp

theorem Flush_err_some {σ : Type} (c : Cleaner σ) (w : σ) (h : failures c.items w ≠ []) :
    (c.Flush w).err = some (GoError.joinError (failures c.items w)) := by
  unfold Cleaner.Flush
  simp only [flushLoop_eq, List.nil_append]
  have hlen : (failures c.items w).length ≠ 0 := by
    intro h0; exact h (List.length_eq_zero.mp h0)
  simp only [hlen, if_false]
  exact errorsJoin_some _ h


/-! ## Lemmas about registration and traced functions -/

theorem registerAll_items {σ α : Type} (render : String → List α → String)
    (rs : List (Registration σ α)) :
    ∀ c : Cleaner σ, (c.registerAll render rs).items
      = c.items ++ rs.map (Registration.item render) := by
  induction rs with
  | nil => intro c; simp [Cleaner.registerAll]
  | cons r rest ih =>
    intro c
    have hstep : (c.register render r).items = c.items ++ [r.item render] := by
      cases r <;> rfl
    have := ih (c.register render r)
    simp only [Cleaner.registerAll, List.foldl_cons] at this ⊢
    rw [this, hstep]
    simp

theorem tracedReg_run_world {σ ι α : Type} (render : String → List α → String)
    (t : TracedReg σ ι α) (w : σ) (tr : List ι) :
    ((t.toReg.item render).run (w, tr)).2.1 = ((t.f w).2, tr ++ [t.tag]) := by
  cases t with
  | add tag f => rfl
  | addf tag f format a =>
    simp only [TracedReg.toReg, Registration.item, addfItem, Item.run, traced, Item.ofFn,
      TracedReg.f, TracedReg.tag]
    cases (f w).1 <;> rfl

theorem worldAfter_traced {σ ι α : Type} (render : String → List α → String)
    (l : List (TracedReg σ ι α)) :
    ∀ (w : σ) (tr : List ι),
      worldAfter (l.map (fun t => t.toReg.item render)) (w, tr)
        = (runFns (l.map TracedReg.f) w, tr ++ l.map TracedReg.tag) := by
  induction l with
  | nil => intro w tr; simp [worldAfter, runFns]
  | cons t rest ih =>
    intro w tr
    simp only [List.map_cons, worldAfter, tracedReg_run_world, ih, runFns, List.foldl_cons]
    simp

theorem flush_traced_world {σ ι α : Type}
    (render : String → List α → String) (l : List (TracedReg σ ι α)) (w : σ) (tr : List ι) :
    ((Cleaner.zero.registerAll render (l.map TracedReg.toReg)).Flush (w, tr)).world
      = (runFns (l.map TracedReg.f) w, tr ++ l.map TracedReg.tag) := by
  rw [Flush_world, registerAll_items]
  simp only [Cleaner.zero, List.nil_append, List.map_map]
  exact worldAfter_traced render l w tr

theorem mem_failures_iff {σ : Type} (items : List (Item σ)) (w : σ) (x : GoError) :
    x ∈ failures items w ↔ some x ∈ outcomes items w := by
  simp [failures, List.mem_filterMap]

theorem failures_eq_nil_iff {σ : Type} (items : List (Item σ)) (w : σ) :
    failures items w = [] ↔ ∀ o ∈ outcomes items w, o = none := by
  constructor
  · intro h o ho
    cases o with
    | none => rfl
    | some x =>
      have : x ∈ failures items w := (mem_failures_iff items w x).mpr ho
      rw [h] at this
      exact absurd this (List.not_mem_nil x)
  · intro h
    apply List.eq_nil_iff_forall_not_mem.mpr
    intro x hx
    have := h _ ((mem_failures_iff items w x).mp hx)
    exact Option.noConfusion this

theorem ErrorAll_eq_map (es : List GoError) : GoError.ErrorAll es = es.map GoError.Error := by
  induction es with
  | nil => simp [GoError.ErrorAll]
  | cons e es ih => simp [GoError.ErrorAll, ih]

theorem foldl_newline_eq (rest : List String) :
    ∀ m x : String, (x :: rest).foldl (fun b y => b ++ "\n" ++ y) m
      = m ++ "\n" ++ joinLines (x :: rest) := by
  induction rest with
  | nil => intro m x; simp [joinLines]
  | cons y rest ih =>
    intro m x
    rw [List.foldl_cons, ih]
    simp [joinLines, String.append_assoc]

theorem joinErrorText_eq_joinLines (l : List String) : joinErrorText l = joinLines l := by
  cases l with
  | nil => rfl
  | cons m rest =>
    cases rest with
    | nil => simp [joinErrorText, joinLines]
    | cons x rest =>
      simp only [joinErrorText, List.length_cons]
      rw [if_neg (by omega), foldl_newline_eq]
      simp [joinLines]

theorem intercalate_go_eq (rest : List String) :
    ∀ acc x : String, String.intercalate.go acc "\n" (x :: rest)
      = acc ++ "\n" ++ joinLines (x :: rest) := by
  induction rest with
  | nil => intro acc x; simp [String.intercalate.go, joinLines]
  | cons y rest ih =>
    intro acc x
    rw [String.intercalate.go, ih]
    simp [joinLines, String.append_assoc]

theorem joinLines_eq_intercalate (l : List String) : joinLines l = "\n".intercalate l := by
  cases l with
  | nil => rfl
  | cons m rest =>
    cases rest with
    | nil => simp [String.intercalate, String.intercalate.go, joinLines]
    | cons x rest =>
      simp only [String.intercalate]
      rw [intercalate_go_eq]
      simp [joinLines]

theorem joinError_Error (es : List GoError) :
    (GoError.joinError es).Error = joinLines (es.map GoError.Error) := by
  rw [GoError.Error, ErrorAll_eq_map, joinErrorText_eq_joinLines]

theorem FlushTo_err_some {σ : Type} (c : Cleaner σ) (s : Option GoError) (w : σ)
    (h : failures c.items w ≠ []) :
    (c.FlushTo s w).err
      = some (GoError.joinError (s.toList ++ [GoError.joinError (failures c.items w)])) := by
  unfold Cleaner.FlushTo
  simp only [Flush_err_some c w h]
  cases s <;> simp [errorsJoin]

theorem FlushTo_err_nil {σ : Type} (c : Cleaner σ) (s : Option GoError) (w : σ)
    (h : failures c.items w = []) : (c.FlushTo s w).err = s := by
  unfold Cleaner.FlushTo
  simp only [Flush_err_nil c w h]

theorem addfItem_run {σ α : Type} (render : String → List α → String)
    (fn : Item σ) (format : String) (a : List α) (w : σ) :
    (addfItem render fn format a).run w
      = match fn.run w with
        | (some err, rest) => (some (fmtErrorf (Sprintf render format a) err), rest)
        | (none, rest) => (none, rest) := rfl

mutual
theorem beq_self : ∀ e : GoError, GoError.beq e e = true
  | .leaf i m => by simp [GoError.beq]
  | .wrapError m e => by simp [GoError.beq, beq_self e]
  | .joinError es => by simp [GoError.beq, beqAll_self es]
theorem beqAll_self : ∀ es : List GoError, GoError.beqAll es es = true
  | [] => by simp [GoError.beqAll]
  | e :: es => by simp [GoError.beqAll, beq_self e, beqAll_self es]
end

theorem errorsIs_self (e : GoError) : errorsIs e e = true := by
  cases e <;> simp [errorsIs, beq_self]

theorem errorsIsAny_of_mem (es : List GoError) (x target : GoError)
    (hx : x ∈ es) (h : errorsIs x target = true) : errorsIsAny es target = true := by
  induction es with
  | nil => exact absurd hx (List.not_mem_nil x)
  | cons e es ih =>
    rcases List.mem_cons.mp hx with rfl | hmem
    · simp [errorsIsAny, h]
    · simp [errorsIsAny, ih hmem]

theorem errorsIs_join_of_mem (es : List GoError) (x target : GoError)
    (hx : x ∈ es) (h : errorsIs x target = true) :
    errorsIs (GoError.joinError es) target = true := by
  simp [errorsIs, errorsIsAny_of_mem es x target hx h]

theorem errorsIs_fmtErrorf_cause (msg : String) (cause : GoError) :
    errorsIs (fmtErrorf msg cause) cause = true := by
  simp [fmtErrorf, errorsIs, errorsIs_self]

theorem joinError_ne_of_mem (z : GoError) (es : List GoError) (hz : z ∈ es) :
    GoError.joinError es ≠ z := by
  intro h
  have h1 := congrArg sizeOf h
  have h2 := List.sizeOf_lt_of_mem hz
  simp only [GoError.joinError.sizeOf_spec] at h1
  omega

theorem worldAfter_append {σ : Type} (l₁ l₂ : List (Item σ)) :
    ∀ w : σ, worldAfter (l₁ ++ l₂) w = worldAfter l₂ (worldAfter l₁ w) := by
  induction l₁ with
  | nil => intro w; rfl
  | cons fn rest ih => intro w; simp [worldAfter, ih]

theorem outcomes_append {σ : Type} (l₁ l₂ : List (Item σ)) :
    ∀ w : σ, outcomes (l₁ ++ l₂) w = outcomes l₁ w ++ outcomes l₂ (worldAfter l₁ w) := by
  induction l₁ with
  | nil => intro w; rfl
  | cons fn rest ih => intro w; simp [outcomes, worldAfter, ih]

theorem failures_append {σ : Type} (l₁ l₂ : List (Item σ)) (w : σ) :
    failures (l₁ ++ l₂) w = failures l₁ w ++ failures l₂ (worldAfter l₁ w) := by
  simp [failures, outcomes_append]

theorem constituents_Flush {σ : Type} (c : Cleaner σ) (w : σ) :
    constituents (c.Flush w).err = failures c.items w := by
  by_cases h : failures c.items w = []
  · rw [Flush_err_nil c w h, h]; rfl
  · rw [Flush_err_some c w h]; rfl

theorem Flush_cleaner {σ : Type} (c : Cleaner σ) (w : σ) :
    (c.Flush w).cleaner = Cleaner.zero := by
  have h := Flush_items c w
  cases hc : (c.Flush w).cleaner with
  | mk its =>
    rw [hc] at h
    simp only at h
    rw [h]; rfl

theorem FlushTo_world {σ : Type} (c : Cleaner σ) (s : Option GoError) (w : σ) :
    (c.FlushTo s w).world = (c.Flush w).world := by
  unfold Cleaner.FlushTo
  dsimp only
  split <;> rfl

theorem FlushTo_cleaner {σ : Type} (c : Cleaner σ) (s : Option GoError) (w : σ) :
    (c.FlushTo s w).cleaner = (c.Flush w).cleaner := by
  unfold Cleaner.FlushTo
  dsimp only
  split <;> rfl

theorem worldAfter_withoutAdds {σ : Type} (l : List (Item σ)) :
    ∀ w : σ, worldAfter (l.map Item.withoutAdds) w = worldAfter l w := by
  induction l with
  | nil => intro w; rfl
  | cons fn rest ih => intro w; simp [worldAfter, Item.withoutAdds, Item.ofFn, Item.run, ih]

theorem outcomes_withoutAdds {σ : Type} (l : List (Item σ)) :
    ∀ w : σ, outcomes (l.map Item.withoutAdds) w = outcomes l w := by
  induction l with
  | nil => intro w; rfl
  | cons fn rest ih => intro w; simp [outcomes, Item.withoutAdds, Item.ofFn, Item.run, ih]

theorem worldAfter_tracedAdding {σ ι : Type}
    (l : List (ι × (σ → Option GoError × σ) × List (Item (σ × List ι)))) :
    ∀ (w : σ) (tr : List ι),
      (worldAfter (l.map (fun t => tracedAdding t.1 t.2.1 t.2.2)) (w, tr)).2
        = tr ++ l.map (fun t => t.1) := by
  induction l with
  | nil => intro w tr; simp [worldAfter]
  | cons t rest ih =>
    intro w tr
    have hrun : ((tracedAdding t.1 t.2.1 t.2.2).run (w, tr)).2.1
        = ((t.2.1 w).2, tr ++ [t.1]) := rfl
    simp only [List.map_cons, worldAfter, hrun, ih]
    simp

theorem addfItem_failure_mem {σ α : Type} (render : String → List α → String)
    (pre post : List (Item σ)) (fn : Item σ) (format : String) (a : List α) (w : σ)
    (cause : GoError) (hfn : (fn.run (worldAfter pre w)).1 = some cause) :
    fmtErrorf (Sprintf render format a) cause
      ∈ failures (pre ++ addfItem render fn format a :: post) w := by
  rw [failures_append]
  apply List.mem_append_right
  rcases hr : fn.run (worldAfter pre w) with ⟨o, rest⟩
  rw [hr] at hfn
  simp only at hfn
  subst hfn
  simp [failures, outcomes, addfItem_run, hr]

theorem runFns_append {σ : Type} (l₁ l₂ : List (σ → Option GoError × σ)) (w : σ) :
    runFns (l₁ ++ l₂) w = runFns l₂ (runFns l₁ w) := by
  simp [runFns, List.foldl_append]

theorem incremental_traced_world {σ ι α : Type} (render : String → List α → String)
    (txs tys : List (TracedReg σ ι α)) (v : σ) (tr : List ι) :
    ((((Cleaner.zero.registerAll render (txs.map TracedReg.toReg)).Flush (v, tr)).cleaner.registerAll
        render (tys.map TracedReg.toReg)).Flush
        ((Cleaner.zero.registerAll render (txs.map TracedReg.toReg)).Flush (v, tr)).world).world
      = (runFns ((txs ++ tys).map TracedReg.f) v,
          tr ++ (txs.map TracedReg.tag ++ tys.map TracedReg.tag)) := by
  rw [Flush_cleaner, flush_traced_world render txs v tr, flush_traced_world render tys]
  simp [runFns_append, List.append_assoc]

/-! ## Lemmas about the test loop -/

theorem Close_at_append (rs : ResourceSource) (pre post : List Resource) (r : Resource)
    (h : rs.all = pre ++ r :: post) :
    Resource.Close pre.length rs
      = (r.err, { rs with all := pre ++ { r with CloseCalled := true } :: post }) := by
  unfold Resource.Close
  have hget : rs.all[pre.length]? = some r := by
    rw [h, List.getElem?_append_right (Nat.le_refl _)]; simp
  have hset : ∀ x : Resource, rs.all.set pre.length x = pre ++ x :: post := by
    intro x
    rw [h, List.set_append_right _ _ (Nat.le_refl _)]; simp
  rw [hget]
  simp only [hset]

theorem loopFrom_append_of_passes {α : Type} (render : String → List α → String)
    (op : Nat → Nat → Nat → ResourceSource → Option GoError) (l₁ l₂ : List Nat) :
    ∀ (c : Cleaner ResourceSource) (fs : ResourceSource)
      (c' : Cleaner ResourceSource) (fs' : ResourceSource),
      passes render op l₁ c fs = some (c', fs') →
      loopFrom render op (l₁ ++ l₂) c fs = loopFrom render op l₂ c' fs' := by
  induction l₁ with
  | nil =>
    intro c fs c' fs' h
    simp only [passes, Option.some.injEq, Prod.mk.injEq] at h
    rw [h.1, h.2]; rfl
  | cons i rest ih =>
    intro c fs c' fs' h
    simp only [passes] at h
    simp only [List.cons_append, loopFrom]
    cases hb : loopBody render op i c fs with
    | ret e c1 fs1 => rw [hb] at h; exact Option.noConfusion h
    | next c1 fs1 =>
      rw [hb] at h
      exact ih c1 fs1 c' fs' h

theorem range_split (n i : Nat) (hi : i < n) :
    ∃ rest, List.range n = List.range i ++ i :: rest := by
  obtain ⟨k, rfl⟩ : ∃ k, n = i + (k + 1) := ⟨n - i - 1, by omega⟩
  refine ⟨((List.range k).map Nat.succ).map (i + ·), ?_⟩
  rw [List.range_add, List.range_succ_eq_map]
  simp

theorem loopBody_next_cleaner {α : Type} (render : String → List α → String)
    (op : Nat → Nat → Nat → ResourceSource → Option GoError) (i : Nat)
    (c c1 : Cleaner ResourceSource) (fs fs1 : ResourceSource)
    (h : loopBody render op i c fs = Step.next c1 fs1) : c1 = Cleaner.zero := by
  unfold loopBody at h
  split at h
  · exact Step.noConfusion h
  · split at h
    · exact Step.noConfusion h
    · split at h
      · exact Step.noConfusion h
      · dsimp only at h
        split at h
        · exact Step.noConfusion h
        · injection h with h1 h2
          rw [← h1]
          exact Flush_cleaner _ _

theorem passes_cleaner {α : Type} (render : String → List α → String)
    (op : Nat → Nat → Nat → ResourceSource → Option GoError) (l : List Nat) :
    ∀ (c : Cleaner ResourceSource) (fs : ResourceSource)
      (c' : Cleaner ResourceSource) (fs' : ResourceSource),
      c = Cleaner.zero → passes render op l c fs = some (c', fs') → c' = Cleaner.zero := by
  induction l with
  | nil =>
    intro c fs c' fs' hc h
    simp only [passes, Option.some.injEq, Prod.mk.injEq] at h
    rw [← h.1, hc]
  | cons i rest ih =>
    intro c fs c' fs' _ h
    simp only [passes] at h
    cases hb : loopBody render op i c fs with
    | ret e c1 fs1 => rw [hb] at h; exact Option.noConfusion h
    | next c1 fs1 =>
      rw [hb] at h
      exact ih c1 fs1 c' fs' (loopBody_next_cleaner render op i c c1 fs fs1 hb) h

theorem Sprintf_plain {α : Type} (render : String → List α → String) (label : String)
    (h : '%' ∉ label.toList) : Sprintf render label [] = label :=
  if_pos ⟨h, rfl⟩

theorem addf_close_run {α : Type} (render : String → List α → String) (k : Nat)
    (label : String) (h : '%' ∉ label.toList) (w : ResourceSource) :
    (addfItem render (closeItem k) label []).run w
      = ((Resource.Close k w).1.map (fmtErrorf label), (Resource.Close k w).2, []) := by
  rw [addfItem_run, Sprintf_plain render label h]
  simp only [closeItem, Item.ofFn, Item.run]
  cases (Resource.Close k w).1 <;> rfl

theorem closeLine_eq (label : String) (o : Option GoError) :
    ((o.map (fmtErrorf label)).toList).map GoError.Error = closeLine label o := by
  cases o <;> rfl

theorem FlushTo_some_text {σ : Type} (c : Cleaner σ) (z : GoError) (w : σ) :
    (c.FlushTo (some z) w).err.map GoError.Error
      = some (joinLines (z.Error :: (failures c.items w).map GoError.Error)) := by
  by_cases h : failures c.items w = []
  · rw [FlushTo_err_nil c _ w h, h]; rfl
  · rw [FlushTo_err_some c _ w h]
    cases hf : failures c.items w with
    | nil => exact absurd hf h
    | cons x xs => simp [joinError_Error, joinLines]

theorem Open_all (rs : ResourceSource) (name : String) :
    match rs.Open name with
    | (Except.error _, rs') =>
      rs'.all = rs.all ∧ rs.n ∈ rs.openF
    | (Except.ok k, rs') =>
      k = rs.all.length ∧ rs.n ∉ rs.openF
        ∧ ∃ r, rs'.all = rs.all ++ [r] ∧ (rs.n ∉ rs.closeF → r.err = none) := by
  unfold ResourceSource.Open
  by_cases h : rs.n ∈ rs.openF
  · simp [h]
  · simp only [h, if_false, true_and, not_false_eq_true]
    refine ⟨_, rfl, ?_⟩
    intro hc
    simp [hc]

theorem Open_fields (rs : ResourceSource) (name : String) :
    (rs.Open name).2.n = rs.n + 1 ∧ (rs.Open name).2.openF = rs.openF
      ∧ (rs.Open name).2.closeF = rs.closeF := by
  unfold ResourceSource.Open
  by_cases h : rs.n ∈ rs.openF <;> simp [h]

theorem Close_fields (k : Nat) (rs : ResourceSource) :
    (Resource.Close k rs).2.n = rs.n ∧ (Resource.Close k rs).2.openF = rs.openF
      ∧ (Resource.Close k rs).2.closeF = rs.closeF := by
  unfold Resource.Close
  cases rs.all[k]? <;> simp

theorem close_one (fs2 : ResourceSource) (old : List Resource) (rA : Resource)
    (h : fs2.all = old ++ [rA]) :
    (Resource.Close old.length fs2).1 = rA.err
    ∧ (Resource.Close old.length fs2).2.all = old ++ [{ rA with CloseCalled := true }] := by
  rw [Close_at_append fs2 old [] rA h]
  exact ⟨rfl, rfl⟩

theorem close_two (fs2 : ResourceSource) (old : List Resource) (rA rB : Resource)
    (h : fs2.all = old ++ [rA, rB]) :
    (Resource.Close old.length fs2).1 = rA.err
    ∧ (Resource.Close (old.length + 1) (Resource.Close old.length fs2).2).1 = rB.err
    ∧ (Resource.Close (old.length + 1) (Resource.Close old.length fs2).2).2.all
        = old ++ [{ rA with CloseCalled := true }, { rB with CloseCalled := true }] := by
  have h1 := Close_at_append fs2 old [rB] rA h
  have h2 := Close_at_append (Resource.Close old.length fs2).2
    (old ++ [{ rA with CloseCalled := true }]) [] rB (by rw [h1]; simp)
  simp only [List.length_append, List.length_singleton] at h2
  rw [h2, h1]
  simp

theorem worldAfter_close_one {α : Type} (render : String → List α → String)
    (k : Nat) (w : ResourceSource) :
    worldAfter [addfItem render (closeItem k) "close source" []] w
      = (Resource.Close k w).2 := by
  simp only [worldAfter, addf_close_run render k "close source" (by decide)]

theorem worldAfter_close_two {α : Type} (render : String → List α → String)
    (k j : Nat) (w : ResourceSource) :
    worldAfter [addfItem render (closeItem k) "close source" [],
        addfItem render (closeItem j) "close destination" []] w
      = (Resource.Close j (Resource.Close k w).2).2 := by
  simp only [worldAfter, addf_close_run render k "close source" (by decide),
    addf_close_run render j "close destination" (by decide)]

/-- The source that a pass through the body of the loop leaves once the
function has returned, if the pass returns, or at the end of the body. -/
theorem loopBody_all {α : Type} (render : String → List α → String)
    (op : Nat → Nat → Nat → ResourceSource → Option GoError) (i : Nat) (fs : ResourceSource) :
    match loopBody render op i Cleaner.zero fs with
    | Step.ret e c1 fs1 =>
      ∃ news, (c1.FlushTo e fs1).world.all = fs.all ++ news
        ∧ ∀ r ∈ news, r.CloseCalled = true
    | Step.next _ fs1 =>
      ∃ news, fs1.all = fs.all ++ news ∧ ∀ r ∈ news, r.CloseCalled = true := by
  have hA := Open_all fs (sprintfD "A" i)
  rcases hoA : fs.Open (sprintfD "A" i) with ⟨_ | src, fs1⟩
  · rw [hoA] at hA
    simp only [loopBody, hoA, FlushTo_world, Flush_world, Cleaner.zero, worldAfter]
    exact ⟨[], by simp [hA.1], by simp⟩
  · rw [hoA] at hA
    obtain ⟨hsrc, -, rA, hall1, -⟩ := hA
    have hB := Open_all fs1 (sprintfD "B" i)
    rcases hoB : fs1.Open (sprintfD "B" i) with ⟨_ | dst, fs2⟩
    · rw [hoB] at hB
      have hall2 : fs2.all = fs.all ++ [rA] := by rw [hB.1, hall1]
      simp only [loopBody, hoA, hoB, FlushTo_world, Flush_world, Cleaner.zero, Cleaner.Addf,
        List.nil_append, worldAfter_close_one, hsrc]
      rw [(close_one fs2 fs.all rA hall2).2]
      exact ⟨_, rfl, by simp⟩
    · rw [hoB] at hB
      obtain ⟨hdst, -, rB, hall2, -⟩ := hB
      have hall2' : fs2.all = fs.all ++ [rA, rB] := by rw [hall2, hall1]; simp
      have hdst' : dst = fs.all.length + 1 := by rw [hdst, hall1]; simp
      have hw := (close_two fs2 fs.all rA rB hall2').2.2
      subst hsrc
      subst hdst'
      cases hop : op i (fs.all.length + 1) fs.all.length fs2 with
      | some e =>
        simp only [loopBody, hoA, hoB, hop, FlushTo_world, Flush_world, Cleaner.zero,
          Cleaner.Addf, List.nil_append, List.singleton_append, worldAfter_close_two]
        rw [hw]
        exact ⟨_, rfl, by simp⟩
      | none =>
        have hFw : (((Cleaner.zero.Addf render (closeItem fs.all.length) "close source"
            []).Addf render (closeItem (fs.all.length + 1)) "close destination" []).Flush
              fs2).world
            = (Resource.Close (fs.all.length + 1) (Resource.Close fs.all.length fs2).2).2 := by
          rw [Flush_world]
          exact worldAfter_close_two render _ _ fs2
        have hFc := Flush_cleaner ((Cleaner.zero.Addf render (closeItem fs.all.length)
          "close source" []).Addf render (closeItem (fs.all.length + 1))
            "close destination" []) fs2
        cases herr : (((Cleaner.zero.Addf render (closeItem fs.all.length) "close source"
            []).Addf render (closeItem (fs.all.length + 1)) "close destination" []).Flush
              fs2).err with
        | some err =>
          simp only [loopBody, hoA, hoB, hop, herr]
          rw [hFc, hFw, FlushTo_world, Flush_world]
          simp only [Cleaner.zero, worldAfter]
          rw [hw]
          exact ⟨_, rfl, by simp⟩
        | none =>
          simp only [loopBody, hoA, hoB, hop, herr]
          simp only [hFw]
          rw [hw]
          exact ⟨_, rfl, by simp⟩

theorem failures_one {σ : Type} (a : Item σ) (w : σ) :
    failures [a] w = (a.run w).1.toList := by
  cases h : (a.run w).1 <;> simp [failures, outcomes, h]

theorem failures_two {σ : Type} (a b : Item σ) (w : σ) :
    failures [a, b] w = (a.run w).1.toList ++ (b.run (a.run w).2.1).1.toList := by
  cases h : (a.run w).1 <;> cases h2 : (b.run (a.run w).2.1).1 <;>
    simp [failures, outcomes, h, h2]

theorem testCleanerLoop_of_passes {α : Type} (render : String → List α → String)
    (op : Nat → Nat → Nat → ResourceSource → Option GoError)
    (fs0 : ResourceSource) (n i : Nat) (c : Cleaner ResourceSource) (fs : ResourceSource)
    (hi : i < n) (hpass : passes render op (List.range i) Cleaner.zero fs0 = some (c, fs))
    (e : Option GoError) (c1 : Cleaner ResourceSource) (fs1 : ResourceSource)
    (hbody : loopBody render op i Cleaner.zero fs = Step.ret e c1 fs1) :
    testCleanerLoop render fs0 n op = ((c1.FlushTo e fs1).err, (c1.FlushTo e fs1).world) := by
  obtain ⟨rest, hr⟩ := range_split n i hi
  have hc := passes_cleaner render op _ _ _ _ _ rfl hpass
  subst hc
  unfold testCleanerLoop
  rw [hr, loopFrom_append_of_passes render op _ _ _ _ _ _ hpass]
  simp only [loopFrom, hbody]

theorem loopFrom_all {α : Type} (render : String → List α → String)
    (op : Nat → Nat → Nat → ResourceSource → Option GoError) (l : List Nat) :
    ∀ fs : ResourceSource, ∃ news,
      ((loopFrom render op l Cleaner.zero fs).2.1.FlushTo (loopFrom render op l Cleaner.zero fs).1
          (loopFrom render op l Cleaner.zero fs).2.2).world.all = fs.all ++ news
        ∧ ∀ r ∈ news, r.CloseCalled = true := by
  induction l with
  | nil =>
    intro fs
    refine ⟨[], ?_, by simp⟩
    simp only [loopFrom, FlushTo_world, Flush_world, Cleaner.zero, worldAfter, List.append_nil]
  | cons i rest ih =>
    intro fs
    have hb := loopBody_all render op i fs
    cases hbody : loopBody render op i Cleaner.zero fs with
    | ret e c1 fs1 =>
      rw [hbody] at hb
      simp only [loopFrom, hbody]
      exact hb
    | next c1 fs1 =>
      rw [hbody] at hb
      have hc := loopBody_next_cleaner render op i _ c1 fs fs1 hbody
      subst hc
      obtain ⟨news1, h1, hcl1⟩ := hb
      obtain ⟨news2, h2, hcl2⟩ := ih fs1
      simp only [loopFrom, hbody]
      refine ⟨news1 ++ news2, ?_, ?_⟩
      · rw [h2, h1, List.append_assoc]
      · intro r hr
        rcases List.mem_append.mp hr with h | h
        · exact hcl1 r h
        · exact hcl2 r h

theorem leaked_of_all (rs rs' : ResourceSource) (news : List Resource)
    (h : rs'.all = rs.all ++ news) (hcl : ∀ r ∈ news, r.CloseCalled = true) :
    rs'.leaked = rs.leaked := by
  unfold ResourceSource.leaked
  rw [h, List.filter_append]
  have hnil : news.filter (fun r => !r.CloseCalled) = [] := by
    apply List.filter_eq_nil_iff.mpr
    intro r hr
    simp [hcl r hr]
  rw [hnil, List.append_nil]

theorem loopFrom_of_passes {α : Type} (render : String → List α → String)
    (op : Nat → Nat → Nat → ResourceSource → Option GoError) (l : List Nat)
    (c c' : Cleaner ResourceSource) (fs fs' : ResourceSource)
    (h : passes render op l c fs = some (c', fs')) :
    loopFrom render op l c fs = (none, c', fs') := by
  have := loopFrom_append_of_passes render op l [] c fs c' fs' h
  rw [List.append_nil] at this
  rw [this]; rfl

theorem loopBody_success {α : Type} (render : String → List α → String)
    (op : Nat → Nat → Nat → ResourceSource → Option GoError) (i : Nat) (fs : ResourceSource)
    (ho1 : fs.n ∉ fs.openF) (ho2 : fs.n + 1 ∉ fs.openF)
    (hc1 : fs.n ∉ fs.closeF) (hc2 : fs.n + 1 ∉ fs.closeF)
    (hop : ∀ dst src w, op i dst src w = none) :
    ∃ fs3, loopBody render op i Cleaner.zero fs = Step.next Cleaner.zero fs3
      ∧ fs3.n = fs.n + 2 ∧ fs3.openF = fs.openF ∧ fs3.closeF = fs.closeF := by
  have hA := Open_all fs (sprintfD "A" i)
  have hfA := Open_fields fs (sprintfD "A" i)
  rcases hoA : fs.Open (sprintfD "A" i) with ⟨_ | src, fs1⟩
  · rw [hoA] at hA
    exact absurd hA.2 ho1
  · rw [hoA] at hA hfA
    obtain ⟨hsrc, -, rA, hall1, hrA⟩ := hA
    simp only at hfA
    obtain ⟨hn1, hof1, hcf1⟩ := hfA
    have hB := Open_all fs1 (sprintfD "B" i)
    have hfB := Open_fields fs1 (sprintfD "B" i)
    rcases hoB : fs1.Open (sprintfD "B" i) with ⟨_ | dst, fs2⟩
    · rw [hoB] at hB
      rw [hn1, hof1] at hB
      exact absurd hB.2 ho2
    · rw [hoB] at hB hfB
      obtain ⟨hdst, -, rB, hall2, hrB⟩ := hB
      simp only at hfB
      obtain ⟨hn2, hof2, hcf2⟩ := hfB
      have hall2' : fs2.all = fs.all ++ [rA, rB] := by rw [hall2, hall1]; simp
      have hdst' : dst = fs.all.length + 1 := by rw [hdst, hall1]; simp
      have hct := close_two fs2 fs.all rA rB hall2'
      have hrA' : rA.err = none := hrA hc1
      have hrB' : rB.err = none := hrB (by rw [hn1, hcf1]; exact hc2)
      subst hsrc
      subst hdst'
      have hfail : failures ((Cleaner.zero.Addf render (closeItem fs.all.length) "close source"
          []).Addf render (closeItem (fs.all.length + 1)) "close destination" []).items fs2
          = [] := by
        simp only [Cleaner.Addf, Cleaner.zero, List.nil_append, List.singleton_append,
          failures_two, addf_close_run render _ "close source" (by decide),
          addf_close_run render _ "close destination" (by decide), hct.1, hct.2.1, hrA', hrB']
        rfl
      have herr := Flush_err_nil _ fs2 hfail
      have hFc := Flush_cleaner ((Cleaner.zero.Addf render (closeItem fs.all.length)
        "close source" []).Addf render (closeItem (fs.all.length + 1))
          "close destination" []) fs2
      have hFw : (((Cleaner.zero.Addf render (closeItem fs.all.length) "close source"
          []).Addf render (closeItem (fs.all.length + 1)) "close destination" []).Flush
            fs2).world
          = (Resource.Close (fs.all.length + 1) (Resource.Close fs.all.length fs2).2).2 := by
        rw [Flush_world]
        exact worldAfter_close_two render _ _ fs2
      refine ⟨(Resource.Close (fs.all.length + 1) (Resource.Close fs.all.length fs2).2).2,
        ?_, ?_, ?_, ?_⟩
      · simp only [loopBody, hoA, hoB, hop, herr]
        rw [hFc, hFw]
      · rw [(Close_fields _ _).1, (Close_fields _ _).1, hn2, hn1]
      · rw [(Close_fields _ _).2.1, (Close_fields _ _).2.1, hof2, hof1]
      · rw [(Close_fields _ _).2.2, (Close_fields _ _).2.2, hcf2, hcf1]

theorem passes_success {α : Type} (render : String → List α → String)
    (op : Nat → Nat → Nat → ResourceSource → Option GoError) (l : List Nat) :
    ∀ fs : ResourceSource,
      (∀ k, fs.n ≤ k → k < fs.n + 2 * l.length → k ∉ fs.openF) →
      (∀ k, fs.n ≤ k → k < fs.n + 2 * l.length → k ∉ fs.closeF) →
      (∀ i ∈ l, ∀ dst src w, op i dst src w = none) →
      ∃ fs', passes render op l Cleaner.zero fs = some (Cleaner.zero, fs') := by
  induction l with
  | nil => intro fs _ _ _; exact ⟨fs, rfl⟩
  | cons i rest ih =>
    intro fs hopen hclose hop
    simp only [List.length_cons] at hopen hclose
    obtain ⟨fs3, hbody, hn, hof, hcf⟩ := loopBody_success render op i fs
      (hopen _ (Nat.le_refl _) (by omega)) (hopen _ (by omega) (by omega))
      (hclose _ (Nat.le_refl _) (by omega)) (hclose _ (by omega) (by omega))
      (hop i (List.mem_cons_self _ _))
    obtain ⟨fs', hp⟩ := ih fs3
      (by intro k h1 h2; rw [hof]; rw [hn] at h1 h2; exact hopen k (by omega) (by omega))
      (by intro k h1 h2; rw [hcf]; rw [hn] at h1 h2; exact hclose k (by omega) (by omega))
      (fun j hj => hop j (List.mem_cons_of_mem _ hj))
    exact ⟨fs', by simp only [passes, hbody]; exact hp⟩

/-! ## The tests of `flerr_test.go`, run on the model -/

theorem test_TestCleanerOpenFailure :
    (testCleanerLoop renderPlain srcOpenFailure 10 opSucceeds).1.map GoError.Error
      = some "open destination: open resource with name \"B0\"\nclose source: close resource with name \"A0\""
    ∧ (testCleanerLoop renderPlain srcOpenFailure 10 opSucceeds).2.leaked = [] := by
  decide

theorem test_TestCleanerOperationAndCloseFailure :
    (testCleanerLoop renderPlain srcCloseFailure 10 opAlwaysFails).1.map GoError.Error
      = some "perform op: operation 0 failed\nclose source: close resource with name \"A0\"\nclose destination: close resource with name \"B0\""
    ∧ (testCleanerLoop renderPlain srcCloseFailure 10 opAlwaysFails).2.leaked = [] := by
  decide

theorem test_TestCleanerOperationFailure :
    (testCleanerLoop renderPlain srcZero 10 opFailsAtTwo).1.map GoError.Error
      = some "perform op: operation 2 failed"
    ∧ (testCleanerLoop renderPlain srcZero 10 opFailsAtTwo).2.leaked = [] := by
  decide!

theorem test_TestCleanerSuccess :
    (testCleanerLoop renderPlain srcZero 10 opSucceeds).1.map GoError.Error = none
    ∧ (testCleanerLoop renderPlain srcZero 10 opSucceeds).2.leaked = [] := by
  decide!

/-! ## The claims -/

/-- C1. Register, on the zero-value Cleaner, any functions a1, ..., an by any
mix of `Add` and `Addf` calls, each function arbitrary in what it does to the
world and in what it returns, not touching the Cleaner, and recording its tag
in a log of calls. Then `Flush` leaves the world that calling a1, ..., an one
after the other in registration order leaves, and the log has grown by exactly
the tags of a1, ..., an in registration order: each function is called exactly
once, in order, whether or not an earlier one failed. -/
theorem flush_invokes_each_once_in_registration_order {σ ι α : Type}
    (render : String → List α → String) (l : List (TracedReg σ ι α)) (w : σ) (tr : List ι) :
    ((Cleaner.zero.registerAll render (l.map TracedReg.toReg)).Flush (w, tr)).world
      = (runFns (l.map TracedReg.f) w, tr ++ l.map TracedReg.tag) :=
  flush_traced_world render l w tr

/-- C2, as stated, fails: with a1 (tag 1) registered before a2 (tag 2), the log
of calls after `Flush` is 1 then 2, so the first call is not a2 and the last is
not a1. -/
theorem flush_not_last_registered_first :
    (cleanerTagged.Flush ((), [])).world.2 = [1, 2]
    ∧ (cleanerTagged.Flush ((), [])).world.2.head? ≠ some 2
    ∧ (cleanerTagged.Flush ((), [])).world.2.getLast? ≠ some 1 := by
  refine ⟨by rfl, by decide, by decide⟩

/-- C2, amended. The registry is executed in first-registered-first-executed
order: with functions registered in the order a1, ..., an and an empty log of
calls, the first call `Flush` makes is a1 and the last is an. -/
theorem flush_first_registered_first {σ ι α : Type}
    (render : String → List α → String) (l : List (TracedReg σ ι α)) (w : σ) :
    (((Cleaner.zero.registerAll render (l.map TracedReg.toReg)).Flush (w, [])).world.2).head?
        = (l.map TracedReg.tag).head?
    ∧ (((Cleaner.zero.registerAll render (l.map TracedReg.toReg)).Flush (w, [])).world.2).getLast?
        = (l.map TracedReg.tag).getLast? := by
  rw [flush_traced_world]
  simp

/-- C3. When `Flush` returns an error, it is a join whose constituents
(`Unwrap() []error`) are exactly the failures the registered functions
returned, in the order of the calls: an error is a constituent if and only if
some call returned it, and there are as many constituents as failing calls, so
a success adds none. -/
theorem flush_constituents_are_the_failures {σ : Type} (c : Cleaner σ) (w : σ) (e : GoError)
    (h : (c.Flush w).err = some e) :
    e.UnwrapAll = some (failures c.items w)
    ∧ (∀ x, x ∈ failures c.items w ↔ some x ∈ outcomes c.items w)
    ∧ (failures c.items w).length = ((outcomes c.items w).filter Option.isSome).length := by
  have hne : failures c.items w ≠ [] := by
    intro h0
    rw [Flush_err_nil c w h0] at h
    exact Option.noConfusion h
  rw [Flush_err_some c w hne] at h
  cases h
  refine ⟨rfl, fun x => mem_failures_iff c.items w x, ?_⟩
  unfold failures
  generalize outcomes c.items w = os
  induction os with
  | nil => rfl
  | cons o os ih => cases o <;> simp [List.filter_cons, ih]

/-- C3 at the registry that fails with X, succeeds and fails with Y: `Flush`
returns the join of X and Y. -/
theorem flush_constituents_are_the_failures_witness :
    (cleanerXY.Flush 0).err = some (GoError.joinError [errX, errY])
    ∧ (GoError.joinError [errX, errY]).UnwrapAll = some (failures cleanerXY.items 0)
    ∧ (∀ x, x ∈ failures cleanerXY.items 0 ↔ some x ∈ outcomes cleanerXY.items 0)
    ∧ (failures cleanerXY.items 0).length
        = ((outcomes cleanerXY.items 0).filter Option.isSome).length :=
  ⟨rfl, flush_constituents_are_the_failures cleanerXY 0 (GoError.joinError [errX, errY]) rfl⟩

/-- C4. `Flush` returns nil if and only if no registered function returned a
failure; on a Cleaner without items (the zero value) it returns nil; and it
never returns a join without constituents. -/
theorem flush_nil_iff_no_failure {σ : Type} (c : Cleaner σ) (w : σ) :
    ((c.Flush w).err = none ↔ ∀ o ∈ outcomes c.items w, o = none)
    ∧ ((Cleaner.zero : Cleaner σ).Flush w).err = none
    ∧ (c.Flush w).err.bind GoError.UnwrapAll ≠ some [] := by
  refine ⟨?_, ?_, ?_⟩
  · rw [← failures_eq_nil_iff]
    constructor
    · intro h
      by_contra hne
      rw [Flush_err_some c w hne] at h
      exact Option.noConfusion h
    · exact Flush_err_nil c w
  · exact Flush_err_nil _ w rfl
  · by_cases h0 : failures c.items w = []
    · rw [Flush_err_nil c w h0]
      simp
    · rw [Flush_err_some c w h0]
      simpa [GoError.UnwrapAll] using h0

/-- C5. Whatever the registered functions return, the registry is empty after
`Flush`; a second `Flush` right after it returns nil and leaves the world (so
any log of calls) and the Cleaner as the first left them. -/
theorem flush_resets_registry {σ : Type} (c : Cleaner σ) (w : σ) :
    (c.Flush w).cleaner.items = []
    ∧ ((c.Flush w).cleaner.Flush (c.Flush w).world).err = none
    ∧ ((c.Flush w).cleaner.Flush (c.Flush w).world).world = (c.Flush w).world
    ∧ ((c.Flush w).cleaner.Flush (c.Flush w).world).cleaner = (c.Flush w).cleaner := by
  have h0 := Flush_items c w
  refine ⟨h0, ?_, ?_, ?_⟩
  · apply Flush_err_nil
    rw [h0]; rfl
  · rw [Flush_world, h0]; rfl
  · have h1 := Flush_items (c.Flush w).cleaner (c.Flush w).world
    cases hc : (c.Flush w).cleaner.Flush (c.Flush w).world with
    | mk e c2 w2 =>
      rw [hc] at h1
      cases hc1 : (c.Flush w).cleaner with
      | mk its1 =>
        rw [hc1] at h0
        cases c2 with
        | mk its2 =>
          simp only at h0 h1 ⊢
          rw [h0, h1]

/-- C6. When at least one registered function fails, `Flush` returns an error
whose `Error()` text is the texts of the failures, in the order of the calls,
with a single newline between consecutive texts and none before the first or
after the last; it is also `"\n".intercalate` of those texts. -/
theorem flush_message_joins_lines {σ : Type} (c : Cleaner σ) (w : σ)
    (h : failures c.items w ≠ []) :
    ∃ e, (c.Flush w).err = some e
      ∧ e.Error = joinLines ((failures c.items w).map GoError.Error)
      ∧ e.Error = "\n".intercalate ((failures c.items w).map GoError.Error) := by
  refine ⟨_, Flush_err_some c w h, joinError_Error _, ?_⟩
  rw [joinError_Error, joinLines_eq_intercalate]

/-- C6 at the registry that fails with X, succeeds and fails with Y. -/
theorem flush_message_joins_lines_witness :
    failures cleanerXY.items 0 ≠ []
    ∧ ∃ e, (cleanerXY.Flush 0).err = some e
      ∧ e.Error = joinLines ((failures cleanerXY.items 0).map GoError.Error)
      ∧ e.Error = "\n".intercalate ((failures cleanerXY.items 0).map GoError.Error) :=
  ⟨fun h => List.noConfusion h,
    flush_message_joins_lines cleanerXY 0 (fun h => List.noConfusion h)⟩

/-- C7. When at least one registered function fails, then whatever the slot
holds, after `FlushTo` it holds an error whose text is the text of the error
the slot held, if it held one, followed by the texts of the failures in the
order of the calls, with single newlines in between; with an empty slot and
the failures X and Y the text is X's, a newline, Y's. -/
theorem flushTo_message_joins_lines {σ : Type} (c : Cleaner σ) (s : Option GoError) (w : σ)
    (h : failures c.items w ≠ []) :
    ∃ r, (c.FlushTo s w).err = some r
      ∧ r.Error
          = joinLines (s.toList.map GoError.Error ++ (failures c.items w).map GoError.Error)
      ∧ (∀ x y, s = none → failures c.items w = [x, y] →
          r.Error = x.Error ++ "\n" ++ y.Error) := by
  refine ⟨_, FlushTo_err_some c s w h, ?_, ?_⟩
  · rw [joinError_Error]
    cases hf : failures c.items w with
    | nil => exact absurd hf h
    | cons x xs =>
      cases s with
      | none => simp [joinLines, joinError_Error]
      | some z => simp [joinLines, joinError_Error]
  · intro x y hs hf
    subst hs
    simp [joinError_Error, hf, joinLines]

/-- C7 at the registry that fails with X and Y, with Z in the slot. -/
theorem flushTo_message_joins_lines_witness :
    failures cleanerXY.items 0 ≠ []
    ∧ ∃ r, (cleanerXY.FlushTo (some errZ) 0).err = some r
      ∧ r.Error
          = joinLines ((some errZ).toList.map GoError.Error
              ++ (failures cleanerXY.items 0).map GoError.Error)
      ∧ (∀ x y, some errZ = none → failures cleanerXY.items 0 = [x, y] →
          r.Error = x.Error ++ "\n" ++ y.Error) :=
  ⟨fun h => List.noConfusion h,
    flushTo_message_joins_lines cleanerXY (some errZ) 0 (fun h => List.noConfusion h)⟩

/-- C8. When every registered function succeeds, `FlushTo` leaves the slot as
it was: the error it held is the one it holds, an empty slot stays empty. -/
theorem flushTo_success_keeps_slot {σ : Type} (c : Cleaner σ) (s : Option GoError) (w : σ)
    (h : ∀ o ∈ outcomes c.items w, o = none) :
    (c.FlushTo s w).err = s :=
  FlushTo_err_nil c s w ((failures_eq_nil_iff c.items w).mpr h)

/-- C8 at the registry of two succeeding functions, with Z in the slot. -/
theorem flushTo_success_keeps_slot_witness :
    (∀ o ∈ outcomes cleanerOk.items 0, o = none)
    ∧ (cleanerOk.FlushTo (some errZ) 0).err = some errZ :=
  ⟨by simp [outcomes, cleanerOk, Cleaner.Add, Cleaner.zero, succeed, Item.ofFn, Item.run],
    flushTo_success_keeps_slot cleanerOk (some errZ) 0
      (by simp [outcomes, cleanerOk, Cleaner.Add, Cleaner.zero, succeed, Item.ofFn, Item.run])⟩

/-- C9. Let `fn` fail with the error `e` in a world `w`, and let `label` be a
format without `%`, given without arguments. Then `Addf(fn, label)` appends
one item to the registry, and that item, called in `w`, returns an error whose
text is `label`, a colon and a space, and the text of `e`, and whose `Unwrap()`
is `e`. -/
theorem addf_item_wraps_failure {σ α : Type} (render : String → List α → String)
    (c : Cleaner σ) (fn : Item σ) (w : σ) (e : GoError) (label : String)
    (hfail : (fn.run w).1 = some e) (hplain : '%' ∉ label.toList) :
    ∃ item r, (c.Addf render fn label []).items = c.items ++ [item]
      ∧ (item.run w).1 = some r
      ∧ r.Error = label ++ ": " ++ e.Error
      ∧ r.Unwrap = some e := by
  refine ⟨addfItem render fn label [], fmtErrorf label e, rfl, ?_, rfl, rfl⟩
  rcases hr : fn.run w with ⟨o, rest⟩
  rw [hr] at hfail
  simp only at hfail
  subst hfail
  have hlabel : Sprintf render label [] = label := if_pos ⟨hplain, rfl⟩
  rw [addfItem_run, hr, hlabel]

/-- C9 at the function failing with Y and the label `close source`. -/
theorem addf_item_wraps_failure_witness :
    ((failWith errY).run 0).1 = some errY ∧ '%' ∉ "close source".toList
    ∧ ∃ item r, (cleanerOk.Addf renderPlain (failWith errY) "close source" []).items
          = cleanerOk.items ++ [item]
      ∧ (item.run 0).1 = some r
      ∧ r.Error = "close source" ++ ": " ++ errY.Error
      ∧ r.Unwrap = some errY :=
  ⟨rfl, by decide,
    addf_item_wraps_failure renderPlain cleanerOk (failWith errY) 0 errY "close source"
      rfl (by decide)⟩

/-- C10. After a failing `Flush` or `FlushTo`, whatever the slot held,
`errors.Is` finds from the resulting error: the error the slot held (from the
slot of `FlushTo`), every failure a registered function returned, and, for
every item of the registry that `Addf(fn, format, a...)` registered and whose
`fn` fails with `cause` when its turn comes, that `cause`; more generally the
cause wrapped in any failure that `fmt.Errorf` with `%w` built. -/
theorem composite_keeps_every_failure_reachable {σ α : Type}
    (render : String → List α → String) (c : Cleaner σ)
    (s : Option GoError) (w : σ) (h : failures c.items w ≠ []) :
    ∃ e r, (c.Flush w).err = some e ∧ (c.FlushTo s w).err = some r
      ∧ (∀ z, s = some z → errorsIs r z = true)
      ∧ (∀ x ∈ failures c.items w, errorsIs e x = true ∧ errorsIs r x = true)
      ∧ (∀ pre post fn format a cause,
          c.items = pre ++ addfItem render fn format a :: post →
          (fn.run (worldAfter pre w)).1 = some cause →
          errorsIs e cause = true ∧ errorsIs r cause = true)
      ∧ (∀ msg cause, fmtErrorf msg cause ∈ failures c.items w →
          errorsIs e cause = true ∧ errorsIs r cause = true) := by
  have key : ∀ x ∈ failures c.items w, ∀ t, errorsIs x t = true →
      errorsIs (GoError.joinError (failures c.items w)) t = true
        ∧ errorsIs (GoError.joinError
            (s.toList ++ [GoError.joinError (failures c.items w)])) t = true := by
    intro x hx t ht
    have h1 := errorsIs_join_of_mem _ x t hx ht
    exact ⟨h1, errorsIs_join_of_mem _ _ t (by simp) h1⟩
  refine ⟨_, _, Flush_err_some c w h, FlushTo_err_some c s w h, ?_, ?_, ?_, ?_⟩
  · intro z hz
    subst hz
    exact errorsIs_join_of_mem _ z z (by simp) (errorsIs_self z)
  · intro x hx
    exact key x hx x (errorsIs_self x)
  · intro pre post fn format a cause hitems hfn
    have hmem := addfItem_failure_mem render pre post fn format a w cause hfn
    rw [← hitems] at hmem
    exact key _ hmem cause (errorsIs_fmtErrorf_cause _ cause)
  · intro msg cause hx
    exact key _ hx cause (errorsIs_fmtErrorf_cause msg cause)

/-- C10 at the registry with X, registered by `Add`, and Y, registered by
`Addf` with the label `close source`, with Z in the slot: `errors.Is` finds Z,
X and the wrapped cause Y from the slot, and X and Y from what `Flush`
returns. -/
theorem composite_keeps_every_failure_reachable_witness :
    failures cleanerLabelled.items 0 ≠ []
    ∧ (∃ e r, (cleanerLabelled.Flush 0).err = some e
      ∧ (cleanerLabelled.FlushTo (some errZ) 0).err = some r
      ∧ (∀ z, some errZ = some z → errorsIs r z = true)
      ∧ (∀ x ∈ failures cleanerLabelled.items 0, errorsIs e x = true ∧ errorsIs r x = true)
      ∧ (∀ pre post fn format a cause,
          cleanerLabelled.items = pre ++ addfItem renderPlain fn format a :: post →
          (fn.run (worldAfter pre 0)).1 = some cause →
          errorsIs e cause = true ∧ errorsIs r cause = true)
      ∧ (∀ msg cause, fmtErrorf msg cause ∈ failures cleanerLabelled.items 0 →
          errorsIs e cause = true ∧ errorsIs r cause = true))
    ∧ cleanerLabelled.items
        = [failWith errX] ++ addfItem renderPlain (failWith errY) "close source" [] :: []
    ∧ ((failWith errY).run (worldAfter [failWith errX] 0)).1 = some errY
    ∧ (cleanerLabelled.Flush 0).err.map (fun e => errorsIs e errY) = some true
    ∧ (cleanerLabelled.FlushTo (some errZ) 0).err.map
        (fun r => (errorsIs r errZ, errorsIs r errX, errorsIs r errY))
        = some (true, true, true) :=
  ⟨fun h => List.noConfusion h,
    composite_keeps_every_failure_reachable renderPlain cleanerLabelled (some errZ) 0
      (fun h => List.noConfusion h),
    rfl, rfl, by decide, by decide⟩

/-- C11. The item that `Addf(fn, format, a...)` registers returns nil exactly
when `fn` returns nil, so a succeeding `fn` never yields a failure made of the
label alone; and one run of the item changes the world, and registers on the
Cleaner, exactly as one call of `fn` does: with `fn` recording its tag in a log
of calls, the log grows by that one tag. -/
theorem addf_item_calls_fn_once {σ ι α : Type} (render : String → List α → String)
    (fn : Item σ) (format : String) (a : List α) (w : σ)
    (tag : ι) (f : σ → Option GoError × σ) (tr : List ι) :
    (((addfItem render fn format a).run w).1 = none ↔ (fn.run w).1 = none)
    ∧ ((addfItem render fn format a).run w).2 = (fn.run w).2
    ∧ ((addfItem render (traced tag f) format a).run (w, tr)).2.1
        = ((f w).2, tr ++ [tag]) := by
  refine ⟨?_, ?_, ?_⟩
  · rw [addfItem_run]
    rcases fn.run w with ⟨o, rest⟩
    cases o <;> simp
  · rw [addfItem_run]
    rcases fn.run w with ⟨o, rest⟩
    cases o <;> rfl
  · exact tracedReg_run_world render (TracedReg.addf tag f format a) w tr

/-- C12. `Add(f)` turns the registry a1, ..., an into a1, ..., an, f, and
`Addf(f, format, a...)` turns it into a1, ..., an, x with x the wrapping
closure: one item longer, the items that were there unchanged and in the same
order, the new item last. Both are functions of the registry alone, so no
cleanup function is called by a registration. -/
theorem add_appends_one_item {σ α : Type} (render : String → List α → String)
    (c : Cleaner σ) (fn : Item σ) (format : String) (a : List α) :
    (c.Add fn).items = c.items ++ [fn]
    ∧ (c.Add fn).items.length = c.items.length + 1
    ∧ (c.Add fn).items.take c.items.length = c.items
    ∧ (c.Addf render fn format a).items = c.items ++ [addfItem render fn format a]
    ∧ (c.Addf render fn format a).items.length = c.items.length + 1
    ∧ (c.Addf render fn format a).items.take c.items.length = c.items := by
  simp [Cleaner.Add, Cleaner.Addf]

/-- C13. In `testCleanerLoop`, let the passes through the body for the indices
before `i` end without a `return`, and let the source of pass `i` open. If
opening the destination fails with `err`, the text of the error returned is
the line `open destination: ` and the text of `err`, then the line of the
close of the source if that close fails, and nothing else. If the destination
opens and the operation fails with `e`, the text is the line `perform op: ` and
the text of `e`, then the line of the close of the source if it fails, then the
line of the close of the destination if it fails, and nothing else. So there
are two lines when the destination fails to open and the one registered close
fails, and three when the operation and both closes fail. -/
theorem loop_early_exit_text {α : Type} (render : String → List α → String)
    (op : Nat → Nat → Nat → ResourceSource → Option GoError)
    (fs0 : ResourceSource) (n i : Nat) (c : Cleaner ResourceSource) (fs fs1 : ResourceSource)
    (src : Nat) (hi : i < n)
    (hpass : passes render op (List.range i) Cleaner.zero fs0 = some (c, fs))
    (hsrc : fs.Open (sprintfD "A" i) = (Except.ok src, fs1)) :
    (∀ err fs2, fs1.Open (sprintfD "B" i) = (Except.error err, fs2) →
      (testCleanerLoop render fs0 n op).1.map GoError.Error
        = some (joinLines (("open destination: " ++ err.Error)
            :: closeLine "close source" (Resource.Close src fs2).1)))
    ∧ (∀ e dst fs2, fs1.Open (sprintfD "B" i) = (Except.ok dst, fs2) →
      op i dst src fs2 = some e →
      (testCleanerLoop render fs0 n op).1.map GoError.Error
        = some (joinLines (("perform op: " ++ e.Error)
            :: (closeLine "close source" (Resource.Close src fs2).1
              ++ closeLine "close destination"
                  (Resource.Close dst (Resource.Close src fs2).2).1)))) := by
  constructor
  · intro err fs2 hdst
    have hbody : loopBody render op i Cleaner.zero fs
        = Step.ret (some (errorfW "open destination: " err))
            (Cleaner.zero.Addf render (closeItem src) "close source" []) fs2 := by
      simp only [loopBody, hsrc, hdst]
    rw [testCleanerLoop_of_passes render op fs0 n i c fs hi hpass _ _ _ hbody]
    rw [FlushTo_some_text]
    simp only [Cleaner.Addf, Cleaner.zero, List.nil_append, failures_one,
      addf_close_run render src "close source" (by decide), closeLine_eq]
    rfl
  · intro e dst fs2 hdst hop
    have hbody : loopBody render op i Cleaner.zero fs
        = Step.ret (some (errorfW "perform op: " e))
            ((Cleaner.zero.Addf render (closeItem src) "close source" []).Addf render
              (closeItem dst) "close destination" []) fs2 := by
      simp only [loopBody, hsrc, hdst, hop]
    rw [testCleanerLoop_of_passes render op fs0 n i c fs hi hpass _ _ _ hbody]
    rw [FlushTo_some_text]
    simp only [Cleaner.Addf, Cleaner.zero, List.nil_append, List.singleton_append, failures_two,
      addf_close_run render src "close source" (by decide),
      addf_close_run render dst "close destination" (by decide), List.map_append, closeLine_eq]
    rfl

/-- C13 at the source whose closes 4 and 5 fail, with the operation failing at
index 2: two passes go through, the third returns, and the text is that of the
operation, of the close of A2 and of the close of B2. -/
theorem loop_early_exit_text_witness :
    2 < 10
    ∧ passes renderPlain opFailsAtTwo (List.range 2) Cleaner.zero srcLateCloseFailure
        = some (Cleaner.zero, srcAfterTwo)
    ∧ srcAfterTwo.Open (sprintfD "A" 2)
        = (Except.ok 4, (srcAfterTwo.Open (sprintfD "A" 2)).2)
    ∧ ((∀ err fs2, (srcAfterTwo.Open (sprintfD "A" 2)).2.Open (sprintfD "B" 2)
          = (Except.error err, fs2) →
        (testCleanerLoop renderPlain srcLateCloseFailure 10 opFailsAtTwo).1.map GoError.Error
          = some (joinLines (("open destination: " ++ err.Error)
              :: closeLine "close source" (Resource.Close 4 fs2).1)))
      ∧ (∀ e dst fs2, (srcAfterTwo.Open (sprintfD "A" 2)).2.Open (sprintfD "B" 2)
          = (Except.ok dst, fs2) →
        opFailsAtTwo 2 dst 4 fs2 = some e →
        (testCleanerLoop renderPlain srcLateCloseFailure 10 opFailsAtTwo).1.map GoError.Error
          = some (joinLines (("perform op: " ++ e.Error)
              :: (closeLine "close source" (Resource.Close 4 fs2).1
                ++ closeLine "close destination"
                    (Resource.Close dst (Resource.Close 4 fs2).2).1)))))
    ∧ (testCleanerLoop renderPlain srcLateCloseFailure 10 opFailsAtTwo).1.map GoError.Error
        = some ("perform op: operation 2 failed\n"
            ++ "close source: close resource with name \"A2\"\n"
            ++ "close destination: close resource with name \"B2\"") :=
  ⟨by decide, rfl, rfl,
    loop_early_exit_text renderPlain opFailsAtTwo srcLateCloseFailure 10 2 Cleaner.zero
      srcAfterTwo (srcAfterTwo.Open (sprintfD "A" 2)).2 4 (by decide) rfl rfl,
    by decide!⟩

/-- C14. Whatever the number of passes, the opens and closes that fail and the
outcomes of the operation, when `testCleanerLoop` has returned (its deferred
`FlushTo` included) the source holds the resources it held before, followed by
the resources the loop opened, and `Close` was called on every one of these;
so `MustBeClosed` reports what it would have reported before the loop, and
nothing from a fresh source. -/
theorem loop_closes_every_opened_resource {α : Type} (render : String → List α → String)
    (op : Nat → Nat → Nat → ResourceSource → Option GoError) (fs0 : ResourceSource) (n : Nat) :
    (∃ news, (testCleanerLoop render fs0 n op).2.all = fs0.all ++ news
        ∧ ∀ r ∈ news, r.CloseCalled = true)
    ∧ (testCleanerLoop render fs0 n op).2.leaked = fs0.leaked
    ∧ (fs0.all = [] → (testCleanerLoop render fs0 n op).2.leaked = []) := by
  obtain ⟨news, h, hcl⟩ := loopFrom_all render op (List.range n) fs0
  have hl : (testCleanerLoop render fs0 n op).2.leaked = fs0.leaked :=
    leaked_of_all fs0 _ news h hcl
  refine ⟨⟨news, h, hcl⟩, hl, ?_⟩
  intro h0
  rw [hl]
  simp [ResourceSource.leaked, h0]

/-- C15. In `testCleanerLoop` with `n` passes, if none of the `2 * n` opens is
set to fail, none of the resources they open is set to fail its close, and the
operation succeeds at every index below `n`, then the function returns nil,
and every one of the `n` passes ends without a `return` (so each `Flush` at
the end of a pass returned nil). -/
theorem loop_success_returns_nil {α : Type} (render : String → List α → String)
    (op : Nat → Nat → Nat → ResourceSource → Option GoError) (fs0 : ResourceSource) (n : Nat)
    (hopen : ∀ k, fs0.n ≤ k → k < fs0.n + 2 * n → k ∉ fs0.openF)
    (hclose : ∀ k, fs0.n ≤ k → k < fs0.n + 2 * n → k ∉ fs0.closeF)
    (hop : ∀ i, i < n → ∀ dst src w, op i dst src w = none) :
    (testCleanerLoop render fs0 n op).1 = none
    ∧ ∃ fs, passes render op (List.range n) Cleaner.zero fs0 = some (Cleaner.zero, fs) := by
  obtain ⟨fs, hp⟩ := passes_success render op (List.range n) fs0
    (by simpa using hopen) (by simpa using hclose)
    (fun i hi => hop i (List.mem_range.mp hi))
  refine ⟨?_, fs, hp⟩
  unfold testCleanerLoop
  rw [loopFrom_of_passes render op _ _ _ _ _ hp]
  exact FlushTo_err_nil _ _ _ rfl

/-- C15 at `TestCleanerSuccess`: the zero-value source, ten passes and an
operation that succeeds. -/
theorem loop_success_returns_nil_witness :
    (∀ k, srcZero.n ≤ k → k < srcZero.n + 2 * 10 → k ∉ srcZero.openF)
    ∧ (∀ k, srcZero.n ≤ k → k < srcZero.n + 2 * 10 → k ∉ srcZero.closeF)
    ∧ (∀ i, i < 10 → ∀ dst src w, opSucceeds i dst src w = none)
    ∧ (testCleanerLoop renderPlain srcZero 10 opSucceeds).1 = none
    ∧ ∃ fs, passes renderPlain opSucceeds (List.range 10) Cleaner.zero srcZero
        = some (Cleaner.zero, fs) :=
  ⟨by simp [srcZero], by simp [srcZero], fun _ _ _ _ _ => rfl,
    loop_success_returns_nil renderPlain opSucceeds srcZero 10
      (by simp [srcZero]) (by simp [srcZero]) (fun _ _ _ _ _ => rfl)⟩

/-- C16. Whatever the slot holds, `FlushTo` leaves the world (so any log of
calls) and the Cleaner as `Flush` leaves them, the registry empty, and the
slot differs from what it held if and only if `Flush` returns a failure. -/
theorem flushTo_refines_flush {σ : Type} (c : Cleaner σ) (s : Option GoError) (w : σ) :
    (c.FlushTo s w).world = (c.Flush w).world
    ∧ (c.FlushTo s w).cleaner = (c.Flush w).cleaner
    ∧ (c.FlushTo s w).cleaner.items = []
    ∧ ((c.FlushTo s w).err ≠ s ↔ (c.Flush w).err ≠ none) := by
  refine ⟨FlushTo_world c s w, FlushTo_cleaner c s w, ?_, ?_⟩
  · rw [FlushTo_cleaner]; exact Flush_items c w
  · by_cases h : failures c.items w = []
    · rw [FlushTo_err_nil c s w h, Flush_err_nil c w h]
      simp
    · rw [FlushTo_err_some c s w h, Flush_err_some c w h]
      cases s with
      | none => simp
      | some z =>
        have hne := joinError_ne_of_mem z
          ((some z).toList ++ [GoError.joinError (failures c.items w)]) (by simp)
        simp only [ne_eq, Option.some.injEq, not_false_eq_true, iff_true, reduceCtorEq]
        exact hne

/-- C17. Starting from the zero-value Cleaner: register `xs`, `Flush`, register
`ys`, `Flush` again. With the functions recording their tags in a log of
calls, the log after the second `Flush` has grown by the tags of `xs` and then
those of `ys`, each once and in order, the world is the one that running the
functions of `xs ++ ys` one after the other leaves, and both are what
registering `xs` then `ys` and one `Flush` leave. For any registered items, the
constituents of the first result are the failures of `xs`, those of the second
the failures of `ys` in the world `xs` left, and the first followed by the
second are the constituents of the result of the single `Flush`; world and
Cleaner agree as well. -/
theorem incremental_flush_eq_single_flush {σ ι α : Type} (render : String → List α → String)
    (xs ys : List (Registration σ α)) (w : σ)
    (txs tys : List (TracedReg σ ι α)) (v : σ) (tr : List ι) :
    ((((Cleaner.zero.registerAll render (txs.map TracedReg.toReg)).Flush
          (v, tr)).cleaner.registerAll render (tys.map TracedReg.toReg)).Flush
        ((Cleaner.zero.registerAll render (txs.map TracedReg.toReg)).Flush (v, tr)).world).world
      = (runFns ((txs ++ tys).map TracedReg.f) v,
          tr ++ (txs.map TracedReg.tag ++ tys.map TracedReg.tag))
    ∧ ((Cleaner.zero.registerAll render ((txs ++ tys).map TracedReg.toReg)).Flush (v, tr)).world
      = (runFns ((txs ++ tys).map TracedReg.f) v,
          tr ++ (txs.map TracedReg.tag ++ tys.map TracedReg.tag))
    ∧ ((((Cleaner.zero.registerAll render xs).Flush w).cleaner.registerAll render ys).Flush
        ((Cleaner.zero.registerAll render xs).Flush w).world).world
      = ((Cleaner.zero.registerAll render (xs ++ ys)).Flush w).world
    ∧ ((((Cleaner.zero.registerAll render xs).Flush w).cleaner.registerAll render ys).Flush
        ((Cleaner.zero.registerAll render xs).Flush w).world).cleaner
      = ((Cleaner.zero.registerAll render (xs ++ ys)).Flush w).cleaner
    ∧ constituents ((Cleaner.zero.registerAll render xs).Flush w).err
      = failures (xs.map (Registration.item render)) w
    ∧ constituents
        ((((Cleaner.zero.registerAll render xs).Flush w).cleaner.registerAll render ys).Flush
          ((Cleaner.zero.registerAll render xs).Flush w).world).err
      = failures (ys.map (Registration.item render))
          (worldAfter (xs.map (Registration.item render)) w)
    ∧ constituents ((Cleaner.zero.registerAll render xs).Flush w).err
        ++ constituents
          ((((Cleaner.zero.registerAll render xs).Flush w).cleaner.registerAll render ys).Flush
            ((Cleaner.zero.registerAll render xs).Flush w).world).err
      = constituents ((Cleaner.zero.registerAll render (xs ++ ys)).Flush w).err := by
  refine ⟨incremental_traced_world render txs tys v tr, ?_, ?_⟩
  · rw [flush_traced_world]
    simp
  · simp only [Flush_cleaner, Flush_world, constituents_Flush, registerAll_items, Cleaner.zero,
      List.nil_append, List.map_append, worldAfter_append, failures_append, and_self]

/-- C18. Functions that the cleanup functions register on the Cleaner while
`Flush` runs do not count: `Flush` returns the error, and leaves the world,
that it would if they had registered nothing; the Cleaner afterwards is the
zero value, so the next `Flush` returns nil and leaves the world as it is; and
with each registered function recording its tag in a log of calls, while
registering any functions `gs`, the log grows by the tags of the registered
functions only. -/
theorem flush_discards_items_added_meanwhile {σ ι : Type} (c : Cleaner σ) (w : σ)
    (l : List (ι × (σ → Option GoError × σ) × List (Item (σ × List ι)))) (tr : List ι) :
    (c.Flush w).err = (Cleaner.Flush { items := c.items.map Item.withoutAdds } w).err
    ∧ (c.Flush w).world = (Cleaner.Flush { items := c.items.map Item.withoutAdds } w).world
    ∧ (c.Flush w).cleaner = Cleaner.zero
    ∧ ((c.Flush w).cleaner.Flush (c.Flush w).world).err = none
    ∧ ((c.Flush w).cleaner.Flush (c.Flush w).world).world = (c.Flush w).world
    ∧ (Cleaner.Flush { items := l.map (fun t => tracedAdding t.1 t.2.1 t.2.2) } (w, tr)).world.2
        = tr ++ l.map (fun t => t.1) := by
  have hf : failures (c.items.map Item.withoutAdds) w = failures c.items w := by
    simp [failures, outcomes_withoutAdds]
  refine ⟨?_, ?_, Flush_cleaner c w, ?_, ?_, ?_⟩
  · by_cases h : failures c.items w = []
    · rw [Flush_err_nil c w h, Flush_err_nil _ w (by rw [hf]; exact h)]
    · rw [Flush_err_some c w h, Flush_err_some _ w (by rw [hf]; exact h), hf]
  · rw [Flush_world, Flush_world, worldAfter_withoutAdds]
  · rw [Flush_cleaner]; exact Flush_err_nil _ _ rfl
  · rw [Flush_cleaner, Flush_world]; rfl
  · rw [Flush_world]
    exact worldAfter_tracedAdding l w tr

/-- C19. When `Flush` fails, it returns a join `e` of the failures, and the
slot after `FlushTo` holds a join whose direct constituents are the error `z`
the slot held and `e`, two in all, when it held one, and `e` alone when it was
empty; in that case the slot holds a join around `e`, not `e` itself. -/
theorem flushTo_nests_the_join {σ : Type} (c : Cleaner σ) (s : Option GoError) (w : σ)
    (h : failures c.items w ≠ []) :
    ∃ e r, (c.Flush w).err = some e ∧ (c.FlushTo s w).err = some r
      ∧ e.UnwrapAll = some (failures c.items w)
      ∧ (∀ z, s = some z → r.UnwrapAll = some [z, e])
      ∧ (s = none → r.UnwrapAll = some [e] ∧ r ≠ e) := by
  refine ⟨_, _, Flush_err_some c w h, FlushTo_err_some c s w h, rfl, ?_, ?_⟩
  · intro z hz
    subst hz
    rfl
  · intro hs
    subst hs
    exact ⟨rfl, joinError_ne_of_mem _ _ (by simp)⟩

/-- C19 at the registry that fails with X and Y, with Z in the slot. -/
theorem flushTo_nests_the_join_witness :
    failures cleanerXY.items 0 ≠ []
    ∧ ∃ e r, (cleanerXY.Flush 0).err = some e ∧ (cleanerXY.FlushTo (some errZ) 0).err = some r
      ∧ e.UnwrapAll = some (failures cleanerXY.items 0)
      ∧ (∀ z, some errZ = some z → r.UnwrapAll = some [z, e])
      ∧ (some errZ = none → r.UnwrapAll = some [e] ∧ r ≠ e) :=
  ⟨fun h => List.noConfusion h,
    flushTo_nests_the_join cleanerXY (some errZ) 0 (fun h => List.noConfusion h)⟩

end Flerr
